import Mathlib

/-!
Shallow embedding of the HAR request-matching pipeline
(`backend/src/extract-har/har-filter.util.ts`,
`backend/src/extract-har/extract-har.service.ts`, `backend/src/constants.ts`).

Modelling conventions:
* TypeScript optional fields become `Option`.
* JavaScript strings are Lean `String`; `s.toLowerCase()` is modelled by
  mapping `Char.toLower` over the characters, `s.slice(0, n)` by taking the
  first `n` characters, and `s.split(sep)[0]` by `takeWhile`.  These agree
  with JavaScript on the ASCII inputs the checks are about.
* JavaScript array index access `l[i]` with a possibly fractional or
  out-of-range number is modelled by `jsIndex` returning `Option`
  (`undefined` becomes `none`); the indices that reach it here are integers.
* The external JSON serializer (`JSON.stringify(...).length`) and the
  external `har-to-curl` renderer are third-party collaborators, not
  repository code; they are abstracted as explicit function parameters
  `size : List _ → Nat` and `toCurl : RequestSummary → String`.
* The classifier oracle is external; one oracle interaction is modelled by
  the structured decode outcome the service extracts from its raw text:
  a call-level failure (request error or missing content), an unparsable
  body (`JSON.parse` throws, after fenced-code-block stripping), or a parsed
  JSON object restricted to the fields the service inspects.  A field that
  is absent, of the wrong type, or a non-integral number is modelled as
  `none`, since `parseMatchOnlyResult` treats those cases identically.
-/

/-- Constant `MAX_PAYLOAD_CHARS` from `constants.ts`. -/
def MAX_PAYLOAD_CHARS : Nat := 100000

/-- Constant `MAX_POSTDATA_CHARS` from `constants.ts`. -/
def MAX_POSTDATA_CHARS : Nat := 4096

/-- Set `HTTP2_PSEUDO_HEADERS` from `constants.ts`, as a list with membership
tests. -/
def HTTP2_PSEUDO_HEADERS : List String :=
  [":authority", ":method", ":path", ":scheme", ":status"]

/-- Set `CURL_DROP_HEADERS` from `constants.ts`. -/
def CURL_DROP_HEADERS : List String :=
  ["accept-encoding", "accept-language", "cache-control", "dnt", "pragma",
   "priority", "sec-ch-ua", "sec-ch-ua-mobile", "sec-ch-ua-platform",
   "sec-fetch-dest", "sec-fetch-mode", "sec-fetch-site", "content-length"]

/-- JavaScript `s.toLowerCase()` (ASCII-faithful), over the character list. -/
def jsToLowerCase (s : String) : String := String.mk (s.data.map Char.toLower)

/-- JavaScript `s.trim()`: strip whitespace from both ends. -/
def jsTrim (s : String) : String :=
  String.mk (((s.data.dropWhile Char.isWhitespace).reverse.dropWhile Char.isWhitespace).reverse)

/-- JavaScript `s.split(';')[0]`: the longest semicolon-free initial segment. -/
def jsBeforeSemi (s : String) : String := String.mk (s.data.takeWhile (fun c => c ≠ ';'))

/-- JavaScript `s.slice(0, n)` on a string. -/
def jsSlice (s : String) (n : Nat) : String := String.mk (s.data.take n)

/-- JavaScript `l.slice(a, b)` on an array, for `0 ≤ a ≤ b`. -/
def jsSliceList {α : Type} (l : List α) (a b : Nat) : List α :=
  (l.drop a).take (b - a)

/-- JavaScript `l[i]` for a signed index: `undefined` (`none`) out of range. -/
def jsIndex {α : Type} (l : List α) (i : Int) : Option α :=
  if 0 ≤ i then l.get? i.toNat else none

/-- HAR header record (`har.types.ts`, `HarHeader`). -/
structure HarHeader where
  name : String
  value : String
deriving DecidableEq

/-- HAR query-string record (`har.types.ts`, `HarQueryString`). -/
structure HarQueryString where
  name : String
  value : String
deriving DecidableEq

/-- HAR post-data record (`har.types.ts`, `HarPostData`). -/
structure HarPostData where
  mimeType : Option String
  text : Option String
  params : Option (List (String × String))
deriving DecidableEq

/-- HAR request record (`har.types.ts`, `HarRequest`). -/
structure HarRequest where
  method : String
  url : String
  headers : List HarHeader
  queryString : Option (List HarQueryString)
  postData : Option HarPostData
deriving DecidableEq

/-- HAR response content record (`har.types.ts`, `HarContent`). -/
structure HarContent where
  mimeType : Option String
  text : Option String
  encoding : Option String
deriving DecidableEq

/-- HAR response record (`har.types.ts`, `HarResponse`). -/
structure HarResponse where
  status : Int
  statusText : Option String
  headers : List HarHeader
  content : Option HarContent
deriving DecidableEq

/-- HAR entry record (`har.types.ts`, `HarEntry`). -/
structure HarEntry where
  request : HarRequest
  response : HarResponse
deriving DecidableEq

/-- HAR log record (`har.types.ts`, `HarLog`). -/
structure HarLog where
  version : Option String
  entries : List HarEntry
deriving DecidableEq

/-- Reduced request shape (`har.types.ts`, `RequestSummary`). -/
structure RequestSummary where
  method : String
  url : String
  headers : List HarHeader
  queryString : Option (List HarQueryString)
  postData : Option HarPostData
deriving DecidableEq

/-- Parse-endpoint entry: a `RequestSummary` plus the response `status`
(frontend `har-types.ts`, `ParseEntry`). -/
structure ParseEntry where
  method : String
  url : String
  headers : List HarHeader
  queryString : Option (List HarQueryString)
  postData : Option HarPostData
  status : Int
deriving DecidableEq

/-- Minimal post-data shape inside `MinimalRequestSummary`. -/
structure MinimalPostData where
  mimeType : Option String
  text : String
deriving DecidableEq

/-- Token-minimal request shape (`har.types.ts`, `MinimalRequestSummary`).
The JavaScript object `headers` is modelled as an insertion-ordered
association list. -/
structure MinimalRequestSummary where
  method : String
  url : String
  headers : List (String × String)
  postData : Option MinimalPostData
deriving DecidableEq

/-- JavaScript truthiness filter for an optional string: the empty string is
falsy and behaves like an absent value. -/
def truthyStr : Option String → Option String
  | some s => if s = "" then none else some s
  | none => none

/-- Check `split(';')[0].trim().toLowerCase() === 'text/html'` shared by both
branches of `isHtmlResponse`. -/
def htmlMimeCheck (s : String) : Bool :=
  jsToLowerCase (jsTrim (jsBeforeSemi s)) = "text/html"

/-- Function `isHtmlResponse` from `har-filter.util.ts`.  The condition
`res.content?.mimeType` is a JavaScript truthiness test, so a present but
empty `mimeType` falls through to the header scan. -/
def isHtmlResponse (e : HarEntry) : Bool :=
  match truthyStr (e.response.content.bind (fun c => c.mimeType)) with
  | some m => htmlMimeCheck m
  | none =>
    match e.response.headers.find? (fun h => jsToLowerCase h.name = "content-type") with
    | some ct => htmlMimeCheck ct.value
    | none => false

/-- Function `filterNonHtmlEntries` from `har-filter.util.ts`.  The dynamic
`Array.isArray` guard is vacuous under the typed model. -/
def filterNonHtmlEntries (log : HarLog) : List HarEntry :=
  log.entries.filter (fun e => !(isHtmlResponse e))

/-- Function `stripPseudoHeaders` from `har-filter.util.ts`. -/
def stripPseudoHeaders (headers : List HarHeader) : List HarHeader :=
  headers.filter (fun h => !(HTTP2_PSEUDO_HEADERS.contains (jsToLowerCase h.name)))

/-- Function `toRequestSummary` from `har-filter.util.ts`.  The expression
`request.queryString?.length ? request.queryString : undefined` keeps the
list only when present and non-empty. -/
def toRequestSummary (request : HarRequest) : RequestSummary :=
  { method := request.method
    url := request.url
    headers := stripPseudoHeaders request.headers
    queryString :=
      match request.queryString with
      | some qs => if qs.length ≠ 0 then some qs else none
      | none => none
    postData := request.postData }

/-- Function `dedupeByUrlAndMethod` from `har-filter.util.ts`, written as a
recursion over the list carrying the mutable `seen` set.  The TypeScript
function is generic over `{ url, method }` record types; the key extractor
is passed explicitly. -/
def dedupeAux {α : Type} (key : α → String) (seen : List String) : List α → List α
  | [] => []
  | x :: xs =>
    if key x ∈ seen then dedupeAux key seen xs
    else x :: dedupeAux key (key x :: seen) xs

/-- Key `` `${item.method} ${item.url}` `` used by `dedupeByUrlAndMethod`. -/
def parseEntryKey (e : ParseEntry) : String := e.method ++ " " ++ e.url

/-- Entry point of `dedupeByUrlAndMethod` (empty `seen` set). -/
def dedupeByUrlAndMethod {α : Type} (key : α → String) (items : List α) : List α :=
  dedupeAux key [] items

/-- Intermediate list of `filterAndReduceHarWithStatus`: retained (non-HTML)
entries reduced to summaries with status, before deduplication. -/
def reducedEntries (log : HarLog) : List ParseEntry :=
  (filterNonHtmlEntries log).map (fun e =>
    let s := toRequestSummary e.request
    { method := s.method, url := s.url, headers := s.headers,
      queryString := s.queryString, postData := s.postData,
      status := e.response.status })

/-- Function `filterAndReduceHarWithStatus` from `har-filter.util.ts`. -/
def filterAndReduceHarWithStatus (log : HarLog) : List ParseEntry :=
  dedupeByUrlAndMethod parseEntryKey (reducedEntries log)

/-- JavaScript object property assignment `m[k] = v`: overwrite in place when
the key exists, append otherwise. -/
def recordSet (m : List (String × String)) (k v : String) : List (String × String) :=
  if m.any (fun p => p.1 = k) then
    m.map (fun p => if p.1 = k then (k, v) else p)
  else m ++ [(k, v)]

/-- Function `toMinimalRequestSummary` from `har-filter.util.ts`. -/
def toMinimalRequestSummary (summary : RequestSummary) : MinimalRequestSummary :=
  let headers := summary.headers.foldl (fun m h =>
    if CURL_DROP_HEADERS.contains (jsToLowerCase h.name) then m
    else recordSet m h.name h.value) []
  { method := summary.method
    url := summary.url
    headers := headers
    postData :=
      match summary.postData with
      | some pd =>
        match pd.text with
        | some text =>
          some { mimeType := pd.mimeType
                 text :=
                   if text.length > MAX_POSTDATA_CHARS then
                     jsSlice text MAX_POSTDATA_CHARS ++ "..."
                   else text }
        | none => none
      | none => none }

/-- Confidence tier of a match (`'high' | 'medium' | 'low'`). -/
inductive Confidence
  | high
  | medium
  | low
deriving DecidableEq

/-- Element of a decoded JSON array, as far as the bullet filter
`typeof x === 'string'` distinguishes elements. -/
inductive JsItem
  | str (s : String)
  | nonStr
deriving DecidableEq

/-- Decoded classifier-response object, restricted to the fields
`parseMatchOnlyResult` inspects.  A field that is absent, non-numeric, or a
non-integral number is `none`. -/
structure MatchJson where
  matchedIndex : Option Int
  confidence : Option String
  explanationBullets : Option (List JsItem)
deriving DecidableEq

/-- Raw classifier response text after fenced-code-block stripping, by its
structured-decode outcome: `JSON.parse` failure or a decoded object. -/
inductive OracleText
  | unparsable
  | parsed (obj : MatchJson)
deriving DecidableEq

/-- Outcome of one classifier call: the call itself failing (or returning no
content), which the service surfaces as a gateway error, or a reply text. -/
inductive OracleAnswer
  | failure
  | reply (t : OracleText)
deriving DecidableEq

/-- Decoded arbitration-response object (`{"bestIndex": <number>}`). -/
structure ArbJson where
  bestIndex : Option Int
deriving DecidableEq

/-- Arbitration response text by its structured-decode outcome. -/
inductive ArbText
  | unparsable
  | parsed (obj : ArbJson)
deriving DecidableEq

/-- Outcome of the arbitration classifier call. -/
inductive ArbAnswer
  | failure
  | reply (t : ArbText)
deriving DecidableEq

/-- Return shape of `parseMatchOnlyResult` / `matchRequest`. -/
structure MatchOutcome where
  matchedIndex : Option Int := none
  confidence : Option Confidence := none
  explanationBullets : Option (List String) := none
deriving DecidableEq

/-- Errors the service throws: `ServiceUnavailableException` (no API key) and
`BadGatewayException` (oracle call failed or returned no content). -/
inductive ServiceError
  | serviceUnavailable
  | badGateway
deriving DecidableEq

/-- Return shape of `matchAndCurl` (`MatchResult` in the service). -/
structure MatchResult where
  curl : String
  matchedIndex : Option Int := none
  confidence : Option Confidence := none
  explanationBullets : Option (List String) := none
deriving DecidableEq

/-- Method `parseMatchOnlyResult` of `ExtractHarService`: tolerant decoding of
one classifier response against a batch of `maxIndex` candidates. -/
def parseMatchOnlyResult (raw : OracleText) (maxIndex : Nat) : MatchOutcome :=
  match raw with
  | .unparsable => { matchedIndex := none, confidence := none, explanationBullets := none }
  | .parsed obj =>
    { matchedIndex :=
        match obj.matchedIndex with
        | some i =>
          if i = -1 then some (-1)
          else some (max 0 (min i ((maxIndex : Int) - 1)))
        | none => none
      confidence :=
        match obj.confidence with
        | some s =>
          if s = "high" then some Confidence.high
          else if s = "medium" then some Confidence.medium
          else if s = "low" then some Confidence.low
          else none
        | none => none
      explanationBullets :=
        match obj.explanationBullets with
        | some items =>
          some (items.filterMap (fun x => match x with | .str s => some s | .nonStr => none))
        | none => none }

/-- Method `matchRequest` of `ExtractHarService`: one classifier call; an
erroring call or missing content throws `BadGatewayException`, otherwise the
reply is decoded tolerantly.  The prompt strings only feed the oracle, which
is abstracted into `answer`. -/
def matchRequest (answer : OracleAnswer) (maxIndex : Nat) : Except ServiceError MatchOutcome :=
  match answer with
  | .failure => .error .badGateway
  | .reply t => .ok (parseMatchOnlyResult t maxIndex)

/-- Batch produced by `splitIntoBatches`: aligned slices of the minimized and
full candidate lists plus the slice's start offset. -/
structure Batch (α β : Type) where
  minimal : List α
  entries : List β
  start : Nat
deriving DecidableEq

/-- Inner `while` loop of `splitIntoBatches`: grow `e` while the slice
`[start, e+1)` still serializes within `MAX_PAYLOAD_CHARS`. -/
def findEnd {α : Type} (size : List α → Nat) (minimal : List α) (start e : Nat) : Nat :=
  if h : e < minimal.length then
    if size (jsSliceList minimal start (e + 1)) > MAX_PAYLOAD_CHARS then e
    else findEnd size minimal start (e + 1)
  else e
termination_by minimal.length - e
decreasing_by simp_wf; omega

/-- Lower bound for `findEnd`: the loop only grows its counter. -/
theorem le_findEnd {α : Type} (size : List α → Nat) (minimal : List α) (start e : Nat) :
    e ≤ findEnd size minimal start e := by
  unfold findEnd
  split
  · split
    · exact Nat.le_refl e
    · exact Nat.le_trans (Nat.le_succ e) (le_findEnd size minimal start (e + 1))
  · exact Nat.le_refl e
termination_by minimal.length - e
decreasing_by simp_wf; omega

/-- End offset of the batch starting at `start`: the largest extent the grow
loop reached, forced to `start + 1` when even the first candidate exceeded
the budget (`if (end === start) end = start + 1`). -/
def batchEnd {α : Type} (size : List α → Nat) (minimal : List α) (start : Nat) : Nat :=
  let e := findEnd size minimal start start
  if e = start then start + 1 else e

/-- Lower bound for `batchEnd`: every batch is non-empty in extent. -/
theorem lt_batchEnd {α : Type} (size : List α → Nat) (minimal : List α) (start : Nat) :
    start < batchEnd size minimal start := by
  unfold batchEnd
  have he := le_findEnd size minimal start start
  simp only []
  split <;> omega

/-- Outer `while` loop of `splitIntoBatches`, starting at offset `start`. -/
def splitFrom {α β : Type} (size : List α → Nat) (minimal : List α) (entries : List β)
    (start : Nat) : List (Batch α β) :=
  if _h : start < minimal.length then
    { minimal := jsSliceList minimal start (batchEnd size minimal start)
      entries := jsSliceList entries start (batchEnd size minimal start)
      start := start } :: splitFrom size minimal entries (batchEnd size minimal start)
  else []
termination_by minimal.length - start
decreasing_by
  have he := lt_batchEnd size minimal start
  simp_wf
  omega

/-- Method `splitIntoBatches` of `ExtractHarService`.  The serialized-JSON
length of a slice (`JSON.stringify(slice).length`) is the abstracted
parameter `size`. -/
def splitIntoBatches {α β : Type} (size : List α → Nat) (minimal : List α)
    (entries : List β) : List (Batch α β) :=
  splitFrom size minimal entries 0

/-- Local `idx` of `matchAndCurlSingle`: `matchResult.matchedIndex ?? 0`. -/
def rawIndex (m : MatchOutcome) : Int := m.matchedIndex.getD 0

/-- Local `safeIdx` of `matchAndCurlSingle`:
`idx >= 0 ? Math.max(0, Math.min(idx, entries.length - 1)) : 0`. -/
def safeIndex (m : MatchOutcome) (len : Nat) : Int :=
  if 0 ≤ rawIndex m then max 0 (min (rawIndex m) ((len : Int) - 1)) else 0

/-- Method `matchAndCurlSingle` of `ExtractHarService`. -/
def matchAndCurlSingle (toCurl : RequestSummary → String) (answer : OracleAnswer)
    (entries : List RequestSummary) (minimal : List MinimalRequestSummary) :
    Except ServiceError MatchResult :=
  match matchRequest answer minimal.length with
  | .error err => .error err
  | .ok m =>
    match jsIndex entries (safeIndex m entries.length) with
    | none =>
      .ok { curl := ""
            matchedIndex := if rawIndex m = -1 then none else some (safeIndex m entries.length)
            confidence := m.confidence
            explanationBullets :=
              if m.matchedIndex = some (-1) then some ["No matching request found."]
              else m.explanationBullets }
    | some fullRequest =>
      if m.matchedIndex = some (-1) then
        .ok { curl := ""
              matchedIndex := if rawIndex m = -1 then none else some (safeIndex m entries.length)
              confidence := m.confidence
              explanationBullets := some ["No matching request found."] }
      else
        .ok { curl := toCurl fullRequest
              matchedIndex := some (safeIndex m entries.length)
              confidence := m.confidence
              explanationBullets := m.explanationBullets }

/-- Per-batch winner pushed onto `batchResults` in `matchAndCurlBatched`. -/
structure BatchHit where
  matchedIndex : Int
  confidence : Option Confidence
  explanationBullets : Option (List String)
  batchStart : Nat
deriving DecidableEq

/-- Phase-1 loop of `matchAndCurlBatched`: classify every batch in order
(the `i`-th call consumes `phase1 i`), aborting on a call failure, and keep
the hits whose index is usable (`!= null`, `>= 0`, `< batch.minimal.length`). -/
def runPhase1 (phase1 : Nat → OracleAnswer) :
    List (Batch MinimalRequestSummary RequestSummary) → Nat → Except ServiceError (List BatchHit)
  | [], _ => .ok []
  | b :: rest, i =>
    match matchRequest (phase1 i) b.minimal.length with
    | .error err => .error err
    | .ok m =>
      match runPhase1 phase1 rest (i + 1) with
      | .error err => .error err
      | .ok tail =>
        match m.matchedIndex with
        | some idx =>
          if 0 ≤ idx ∧ idx < (b.minimal.length : Int) then
            .ok ({ matchedIndex := idx, confidence := m.confidence,
                   explanationBullets := m.explanationBullets, batchStart := b.start } :: tail)
          else .ok tail
        | none => .ok tail

/-- Compact candidate-of-candidates entry built in `aggregateBatchWinners`. -/
structure ArbCandidate where
  index : Nat
  method : String
  url : String
  explanationBullets : List String
  globalIndex : Int
  fullRequest : Option RequestSummary
deriving DecidableEq

/-- Candidate list built by `aggregateBatchWinners` from the per-batch hits. -/
def arbCandidates (batchResults : List BatchHit) (entries : List RequestSummary) :
    List ArbCandidate :=
  batchResults.enum.map (fun p =>
    let globalIndex : Int := (p.2.batchStart : Int) + p.2.matchedIndex
    let entry := jsIndex entries globalIndex
    { index := p.1
      method := (entry.map (fun r => r.method)).getD "?"
      url := (entry.map (fun r => r.url)).getD "?"
      explanationBullets := p.2.explanationBullets.getD []
      globalIndex := globalIndex
      fullRequest := entry })

/-- Validity filter of `aggregateBatchWinners` (`fullRequest != null`). -/
def validArbCandidates (batchResults : List BatchHit) (entries : List RequestSummary) :
    List ArbCandidate :=
  (arbCandidates batchResults entries).filter (fun c => c.fullRequest.isSome)

/-- Index selection of `aggregateBatchWinners` from the arbitration reply:
`0` on parse failure or a non-integer `bestIndex`, otherwise the integer
clamped into `[0, n-1]`. -/
def arbBestIndex (t : ArbText) (n : Nat) : Nat :=
  match t with
  | .unparsable => 0
  | .parsed obj =>
    match obj.bestIndex with
    | some i => (max 0 (min i ((n : Int) - 1))).toNat
    | none => 0

/-- Winner record returned by `aggregateBatchWinners`. -/
structure Winner where
  globalIndex : Int
  fullRequest : RequestSummary
  confidence : Option Confidence
  explanationBullets : Option (List String)
deriving DecidableEq

/-- Method `aggregateBatchWinners` of `ExtractHarService`.  The boolean in the
result records whether the arbitration oracle call was made.  The branches
marked unreachable model the non-null assertions (`!`) in the source, which
hold on every reachable path. -/
def aggregateBatchWinners (arb : ArbAnswer) (batchResults : List BatchHit)
    (entries : List RequestSummary) : Except ServiceError (Option Winner × Bool) :=
  match validArbCandidates batchResults entries with
  | [] => .ok (none, false)
  | [c] =>
    match c.fullRequest, batchResults.get? c.index with
    | some fr, some br =>
      .ok (some { globalIndex := c.globalIndex, fullRequest := fr,
                  confidence := br.confidence, explanationBullets := br.explanationBullets },
           false)
    | _, _ => .ok (none, false)
  | c1 :: c2 :: rest =>
    match arb with
    | .failure => .error .badGateway
    | .reply t =>
      let validCandidates := c1 :: c2 :: rest
      let bestIndex := arbBestIndex t validCandidates.length
      match validCandidates.get? bestIndex with
      | some winner =>
        match winner.fullRequest, batchResults.get? winner.index with
        | some fr, some br =>
          .ok (some { globalIndex := winner.globalIndex, fullRequest := fr,
                      confidence := br.confidence, explanationBullets := br.explanationBullets },
               true)
        | _, _ => .ok (none, true)
      | none => .ok (none, true)

/-- Method `matchAndCurlBatched` of `ExtractHarService`.  The natural number
in the result counts classifier-oracle calls (one per batch, plus one when
arbitration is invoked). -/
def matchAndCurlBatched (toCurl : RequestSummary → String)
    (size : List MinimalRequestSummary → Nat)
    (phase1 : Nat → OracleAnswer) (arb : ArbAnswer)
    (entries : List RequestSummary) (minimal : List MinimalRequestSummary) :
    Except ServiceError (MatchResult × Nat) :=
  match runPhase1 phase1 (splitIntoBatches size minimal entries) 0 with
  | .error err => .error err
  | .ok [] =>
    .ok ({ curl := "", explanationBullets := some ["No matching request found in any batch."] },
         (splitIntoBatches size minimal entries).length)
  | .ok [r] =>
    match jsIndex entries ((r.batchStart : Int) + r.matchedIndex) with
    | none =>
      .ok ({ curl := "", matchedIndex := some ((r.batchStart : Int) + r.matchedIndex),
             confidence := r.confidence, explanationBullets := r.explanationBullets },
           (splitIntoBatches size minimal entries).length)
    | some fullRequest =>
      .ok ({ curl := toCurl fullRequest,
             matchedIndex := some ((r.batchStart : Int) + r.matchedIndex),
             confidence := r.confidence, explanationBullets := r.explanationBullets },
           (splitIntoBatches size minimal entries).length)
  | .ok (r1 :: r2 :: rest) =>
    match aggregateBatchWinners arb (r1 :: r2 :: rest) entries with
    | .error err => .error err
    | .ok (none, arbCalled) =>
      .ok ({ curl := "",
             explanationBullets := some ["No matching request found in any batch."] },
           (splitIntoBatches size minimal entries).length + (if arbCalled then 1 else 0))
    | .ok (some w, arbCalled) =>
      .ok ({ curl := toCurl w.fullRequest, matchedIndex := some w.globalIndex,
             confidence := w.confidence, explanationBullets := w.explanationBullets },
           (splitIntoBatches size minimal entries).length + (if arbCalled then 1 else 0))

/-- Method `matchAndCurl` of `ExtractHarService`.  `keyConfigured` models
whether `OPENAI_API_KEY` is set (`getClient` throws otherwise); the empty
list returns before the client is requested.  The natural number counts
classifier-oracle calls. -/
def matchAndCurl (keyConfigured : Bool) (toCurl : RequestSummary → String)
    (size : List MinimalRequestSummary → Nat)
    (phase1 : Nat → OracleAnswer) (arb : ArbAnswer)
    (entries : List RequestSummary) : Except ServiceError (MatchResult × Nat) :=
  if entries.length = 0 then .ok ({ curl := "" }, 0)
  else if keyConfigured then
    if size (entries.map toMinimalRequestSummary) ≤ MAX_PAYLOAD_CHARS then
      match matchAndCurlSingle toCurl (phase1 0) entries (entries.map toMinimalRequestSummary) with
      | .error err => .error err
      | .ok r => .ok (r, 1)
    else matchAndCurlBatched toCurl size phase1 arb entries (entries.map toMinimalRequestSummary)
  else .error .serviceUnavailable

/-- Decidable equality for `Except`, used to evaluate the model on concrete
inputs. -/
instance {ε α : Type} [DecidableEq ε] [DecidableEq α] : DecidableEq (Except ε α) := fun a b =>
  match a, b with
  | .error x, .error y =>
    if h : x = y then isTrue (by rw [h]) else isFalse (fun hc => h (Except.error.inj hc))
  | .ok x, .ok y =>
    if h : x = y then isTrue (by rw [h]) else isFalse (fun hc => h (Except.ok.inj hc))
  | .error _, .ok _ => isFalse (fun hc => Except.noConfusion hc)
  | .ok _, .error _ => isFalse (fun hc => Except.noConfusion hc)

/-- C10: for the empty candidate list, `matchAndCurl` returns `{ curl: '' }`
with no matched index, no confidence and no explanation bullets, makes no
classifier call (the call count is 0), and succeeds whether or not an API
key is configured. -/
theorem matchAndCurl_empty (keyConfigured : Bool) (toCurl : RequestSummary → String)
    (size : List MinimalRequestSummary → Nat) (phase1 : Nat → OracleAnswer) (arb : ArbAnswer) :
    matchAndCurl keyConfigured toCurl size phase1 arb []
      = .ok ({ curl := "", matchedIndex := none, confidence := none,
               explanationBullets := none }, 0) := rfl

/-- C5: decoding a classifier response against a batch of positive size
`batchSize` preserves a decoded `matchedIndex` of `-1` unchanged, and clamps
any other decoded integer into `[0, batchSize - 1]`. -/
theorem parseMatchOnly_clamps (obj : MatchJson) (batchSize : Nat) (i : Int)
    (hsz : 0 < batchSize) (hidx : obj.matchedIndex = some i) :
    (i = -1 →
      (parseMatchOnlyResult (OracleText.parsed obj) batchSize).matchedIndex = some (-1)) ∧
    (i ≠ -1 →
      (parseMatchOnlyResult (OracleText.parsed obj) batchSize).matchedIndex
          = some (max 0 (min i ((batchSize : Int) - 1))) ∧
        0 ≤ max 0 (min i ((batchSize : Int) - 1)) ∧
        max 0 (min i ((batchSize : Int) - 1)) ≤ (batchSize : Int) - 1) := by
  constructor
  · intro h
    simp [parseMatchOnlyResult, hidx, h]
  · intro h
    refine ⟨by simp [parseMatchOnlyResult, hidx, h], le_max_left _ _, ?_⟩
    have h0 : (0 : Int) ≤ (batchSize : Int) - 1 := by omega
    exact max_le h0 (min_le_right _ _)

/-- Witness for C5 at a concrete out-of-range response (`matchedIndex = 5`
against a batch of 3): the index is clamped to 2. -/
theorem parseMatchOnly_clamps_witness :
    (parseMatchOnlyResult (OracleText.parsed ⟨some 5, none, none⟩) 3).matchedIndex = some 2 := by
  have h := (parseMatchOnly_clamps ⟨some 5, none, none⟩ 3 5 (by decide) rfl).2 (by decide)
  rw [h.1]
  decide

/-- Value of the first response header whose lowercased name is
`content-type`, as scanned by `isHtmlResponse`. -/
def contentTypeHeaderValue (e : HarEntry) : Option String :=
  (e.response.headers.find? (fun h => jsToLowerCase h.name = "content-type")).map
    (fun h => h.value)

/-- Exclusion rule exactly as claim C7 words it: when `mimeType` is present
(even empty) it alone decides; only when it is absent does the header scan
apply; with neither, retain. -/
def claimHtmlRule (e : HarEntry) : Bool :=
  match e.response.content.bind (fun c => c.mimeType) with
  | some m => htmlMimeCheck m
  | none =>
    match contentTypeHeaderValue e with
    | some v => htmlMimeCheck v
    | none => false

/-- Exclusion rule as amended: a present but empty `mimeType` does not
decide; the header scan applies when `mimeType` is absent or empty. -/
def amendedHtmlRule (e : HarEntry) : Bool :=
  match e.response.content.bind (fun c => c.mimeType) with
  | some m =>
    if m = "" then
      match contentTypeHeaderValue e with
      | some v => htmlMimeCheck v
      | none => false
    else htmlMimeCheck m
  | none =>
    match contentTypeHeaderValue e with
    | some v => htmlMimeCheck v
    | none => false

/-- Pointwise agreement of the code's HTML test with the amended rule. -/
theorem isHtml_eq_amended (e : HarEntry) : isHtmlResponse e = amendedHtmlRule e := by
  unfold isHtmlResponse amendedHtmlRule contentTypeHeaderValue truthyStr
  cases h : e.response.content.bind (fun c => c.mimeType) with
  | none =>
    cases hf : e.response.headers.find? (fun h => jsToLowerCase h.name = "content-type") <;>
      simp [hf]
  | some m =>
    by_cases hm : m = "" <;>
      cases hf : e.response.headers.find? (fun h => jsToLowerCase h.name = "content-type") <;>
        simp [hm, hf]

/-- C7 (amended): the Entry Reducer excludes exactly the entries classified
as HTML by the amended rule: a present and NON-EMPTY `response.content.mimeType`
decides via the before-semicolon/trim/lowercase check against `text/html`;
otherwise (absent or empty) the first case-insensitively found
`content-type` response header decides by the same check; with neither, the
entry is retained. -/
theorem entryReducer_html_rule (log : HarLog) :
    filterNonHtmlEntries log = log.entries.filter (fun e => !(amendedHtmlRule e)) := by
  unfold filterNonHtmlEntries
  exact List.filter_congr (fun e _ => by rw [isHtml_eq_amended])

/-- Concrete entry refuting C7 as stated: `content.mimeType` present but
empty, with an HTML `content-type` response header. -/
def c7Entry : HarEntry :=
  { request := { method := "GET", url := "https://api.example.com/x", headers := [],
                 queryString := none, postData := none }
    response := { status := 200, statusText := none
                  headers := [{ name := "Content-Type", value := "text/html" }]
                  content := some { mimeType := some "", text := none, encoding := none } } }

/-- C7 counterexample: on `c7Entry` the code excludes the entry (the empty
`mimeType` is falsy, so the header scan applies and matches `text/html`),
while the rule as claimed would retain it. -/
theorem c7_counterexample :
    isHtmlResponse c7Entry = true ∧ claimHtmlRule c7Entry = false ∧
      filterNonHtmlEntries { version := none, entries := [c7Entry] } = [] := by
  decide

/-- Membership in a JavaScript-object assignment result: every entry was
already present or carries the assigned key. -/
theorem recordSet_mem {m : List (String × String)} {k v : String} {p : String × String}
    (hp : p ∈ recordSet m k v) : p ∈ m ∨ p.1 = k := by
  unfold recordSet at hp
  split at hp
  · rcases List.mem_map.mp hp with ⟨q, hq, hpq⟩
    by_cases hk : q.1 = k
    · rw [if_pos hk] at hpq
      exact Or.inr (by rw [← hpq])
    · rw [if_neg hk] at hpq
      exact Or.inl (by rwa [← hpq])
  · rcases List.mem_append.mp hp with h1 | h1
    · exact Or.inl h1
    · rcases List.mem_singleton.mp h1 with h2
      exact Or.inr (by rw [h2])

/-- Invariant of the header fold in `toMinimalRequestSummary`: starting from
an accumulator free of noise headers, the result stays free of them. -/
theorem foldHeaders_no_noise (headers : List HarHeader) (m0 : List (String × String))
    (hm0 : ∀ p ∈ m0, CURL_DROP_HEADERS.contains (jsToLowerCase p.1) = false) :
    ∀ p ∈ headers.foldl (fun m h =>
        if CURL_DROP_HEADERS.contains (jsToLowerCase h.name) then m
        else recordSet m h.name h.value) m0,
      CURL_DROP_HEADERS.contains (jsToLowerCase p.1) = false := by
  induction headers generalizing m0 with
  | nil => exact hm0
  | cons h hs ih =>
    intro p hp
    rw [List.foldl_cons] at hp
    by_cases hd : CURL_DROP_HEADERS.contains (jsToLowerCase h.name) = true
    · rw [if_pos hd] at hp
      exact ih m0 hm0 p hp
    · rw [if_neg hd] at hp
      refine ih (recordSet m0 h.name h.value) ?_ p hp
      intro q hq
      rcases recordSet_mem hq with hq1 | hq2
      · exact hm0 q hq1
      · rw [hq2]
        simpa using hd

/-- Length of a string slice. -/
theorem jsSlice_length (s : String) (n : Nat) : (jsSlice s n).length = min n s.length := by
  cases s with
  | mk data => simp [jsSlice, String.length]
/-- Unfolding of the post-data projection of `toMinimalRequestSummary`. -/
theorem toMinimal_postData (summary : RequestSummary) :
    (toMinimalRequestSummary summary).postData
      = match summary.postData with
        | some pd =>
          match pd.text with
          | some text =>
            some { mimeType := pd.mimeType,
                   text := if text.length > MAX_POSTDATA_CHARS then
                       jsSlice text MAX_POSTDATA_CHARS ++ "..."
                     else text }
          | none => none
        | none => none := rfl

/-- C3 (amended): the Minimizer output never contains a header whose
lowercased name is a noise header, and its post-data text is never longer
than `MAX_POSTDATA_CHARS + 3` (the ceiling plus the appended `...` marker);
when the input text exceeds the ceiling, the output is its first
`MAX_POSTDATA_CHARS` characters with `...` appended. -/
theorem toMinimal_bounds (summary : RequestSummary) :
    (∀ p ∈ (toMinimalRequestSummary summary).headers,
        CURL_DROP_HEADERS.contains (jsToLowerCase p.1) = false) ∧
    (∀ pd, (toMinimalRequestSummary summary).postData = some pd →
        pd.text.length ≤ MAX_POSTDATA_CHARS + 3) ∧
    (∀ spd text, summary.postData = some spd → spd.text = some text →
        text.length > MAX_POSTDATA_CHARS →
        (toMinimalRequestSummary summary).postData
          = some { mimeType := spd.mimeType,
                   text := jsSlice text MAX_POSTDATA_CHARS ++ "..." }) := by
  refine ⟨?_, ?_, ?_⟩
  · intro p hp
    refine foldHeaders_no_noise summary.headers [] (by simp) p ?_
    simpa [toMinimalRequestSummary] using hp
  · intro pd hpd
    rw [toMinimal_postData] at hpd
    cases hopt : summary.postData with
    | none => simp [hopt] at hpd
    | some spd =>
      cases htext : spd.text with
      | none => simp [hopt, htext] at hpd
      | some text =>
        simp only [hopt, htext, Option.some.injEq] at hpd
        rw [← hpd]
        dsimp only
        by_cases hlen : text.length > MAX_POSTDATA_CHARS
        · rw [if_pos hlen, String.length_append, jsSlice_length]
          have hmin : min MAX_POSTDATA_CHARS text.length = MAX_POSTDATA_CHARS := by omega
          rw [hmin]
          rw [show ("..." : String).length = 3 from rfl]
        · rw [if_neg hlen]
          omega
  · intro spd text hopt htext hlen
    rw [toMinimal_postData]
    simp only [hopt, htext]
    rw [if_pos hlen]

/-- Witness for C3 at a concrete candidate whose post-data text (5000
characters) exceeds the ceiling. -/
theorem toMinimal_bounds_witness :
    (toMinimalRequestSummary
        { method := "POST", url := "https://api.example.com/y",
          headers := [{ name := "Accept-Encoding", value := "gzip" },
                      { name := "X-Token", value := "t" }],
          queryString := none,
          postData := some { mimeType := some "text/plain",
                             text := some (String.mk (List.replicate 5000 'a')),
                             params := none } }).postData
      = some { mimeType := some "text/plain",
               text := jsSlice (String.mk (List.replicate 5000 'a')) MAX_POSTDATA_CHARS ++ "..." } := by
  refine (toMinimal_bounds _).2.2
    { mimeType := some "text/plain", text := some (String.mk (List.replicate 5000 'a')),
      params := none }
    (String.mk (List.replicate 5000 'a')) rfl rfl ?_
  show (String.mk (List.replicate 5000 'a')).length > MAX_POSTDATA_CHARS
  rw [String.mk_length, List.length_replicate]
  decide

/-- Concrete candidate refuting the ceiling bound of C3 as stated: its
post-data text has 4097 characters. -/
def c3Summary : RequestSummary :=
  { method := "POST", url := "https://api.example.com/z", headers := [],
    queryString := none,
    postData := some { mimeType := none,
                       text := some (String.mk (List.replicate 4097 'a')),
                       params := none } }

/-- C3 counterexample: the minimized post-data text of `c3Summary` has
`MAX_POSTDATA_CHARS + 3 = 4099` characters, longer than the truncation
ceiling the claim asserts as the bound. -/
theorem c3_counterexample :
    ((toMinimalRequestSummary c3Summary).postData.map (fun pd => pd.text.length)).getD 0
        = MAX_POSTDATA_CHARS + 3 ∧
      ¬ ((toMinimalRequestSummary c3Summary).postData.map (fun pd => pd.text.length)).getD 0
          ≤ MAX_POSTDATA_CHARS := by
  have hlen : (String.mk (List.replicate 4097 'a')).length > MAX_POSTDATA_CHARS := by
    rw [String.mk_length, List.length_replicate]
    decide
  have h : (toMinimalRequestSummary c3Summary).postData
      = some { mimeType := none,
               text := jsSlice (String.mk (List.replicate 4097 'a')) MAX_POSTDATA_CHARS ++ "..." } := by
    rw [toMinimal_postData]
    simp only [c3Summary]
    rw [if_pos hlen]
  rw [h]
  have hthree : ("..." : String).length = 3 := rfl
  have hslice :
      (jsSlice (String.mk (List.replicate 4097 'a')) MAX_POSTDATA_CHARS).length
        = MAX_POSTDATA_CHARS := by
    rw [jsSlice_length, String.mk_length, List.length_replicate]
    decide
  simp only [Option.map_some', Option.getD_some]
  rw [String.length_append, hslice, hthree]
  omega

/-- Deduplication output is a sublist of its input (order preserved). -/
theorem dedupeAux_sublist {α : Type} (key : α → String) (seen : List String) (l : List α) :
    (dedupeAux key seen l).Sublist l := by
  induction l generalizing seen with
  | nil => simp [dedupeAux]
  | cons x xs ih =>
    unfold dedupeAux
    split
    · exact List.Sublist.cons x (ih seen)
    · exact List.Sublist.cons₂ x (ih (key x :: seen))

/-- No element surviving deduplication has a key from the `seen` set. -/
theorem dedupeAux_not_seen {α : Type} (key : α → String) (seen : List String) (l : List α)
    {y : α} (hy : y ∈ dedupeAux key seen l) : key y ∉ seen := by
  induction l generalizing seen with
  | nil => simp [dedupeAux] at hy
  | cons x xs ih =>
    unfold dedupeAux at hy
    split at hy
    case isTrue hseen => exact ih seen hy
    case isFalse hseen =>
      rcases List.mem_cons.mp hy with h1 | h1
      · rw [h1]
        exact hseen
      · have hk := ih (key x :: seen) h1
        intro hc
        exact hk (List.mem_cons_of_mem _ hc)

/-- Keys of the elements surviving deduplication are pairwise distinct. -/
theorem dedupeAux_pairwise {α : Type} (key : α → String) (seen : List String) (l : List α) :
    (dedupeAux key seen l).Pairwise (fun a b => key a ≠ key b) := by
  induction l generalizing seen with
  | nil => simp [dedupeAux]
  | cons x xs ih =>
    unfold dedupeAux
    split
    · exact ih seen
    · refine List.Pairwise.cons ?_ (ih (key x :: seen))
      intro b hb hc
      have hk := dedupeAux_not_seen key (key x :: seen) xs hb
      exact hk (by rw [← hc]; exact List.mem_cons_self _ _)

/-- Every element surviving deduplication is the first element of the input
with its key. -/
theorem dedupeAux_find? {α : Type} (key : α → String) (seen : List String) (l : List α)
    {y : α} (hy : y ∈ dedupeAux key seen l) :
    l.find? (fun x => key x == key y) = some y := by
  induction l generalizing seen with
  | nil => simp [dedupeAux] at hy
  | cons x xs ih =>
    unfold dedupeAux at hy
    split at hy
    case isTrue hseen =>
      have hns := dedupeAux_not_seen key seen xs hy
      have hne : ¬ ((fun z => key z == key y) x = true) := by
        simp only [beq_iff_eq]
        intro hc
        exact hns (hc ▸ hseen)
      rw [@List.find?_cons_of_neg _ (fun z => key z == key y) x xs hne]
      exact ih seen hy
    case isFalse hseen =>
      rcases List.mem_cons.mp hy with h1 | h1
      · rw [h1]
        rw [@List.find?_cons_of_pos _ (fun z => key z == key x) x xs (by simp)]
      · have hns := dedupeAux_not_seen key (key x :: seen) xs h1
        have hne : ¬ ((fun z => key z == key y) x = true) := by
          simp only [beq_iff_eq]
          intro hc
          exact hns (by rw [← hc]; exact List.mem_cons_self _ _)
        rw [@List.find?_cons_of_neg _ (fun z => key z == key y) x xs hne]
        exact ih (key x :: seen) h1

/-- Transfer of a `find?` result to a stronger predicate satisfied by the
found element. -/
theorem find?_mono {α : Type} (p q : α → Bool) (l : List α) (y : α)
    (hpq : ∀ x, q x = true → p x = true) (hy : q y = true)
    (h : l.find? p = some y) : l.find? q = some y := by
  induction l with
  | nil => simp at h
  | cons x xs ih =>
    by_cases hqx : q x = true
    · have hpx := hpq x hqx
      rw [List.find?_cons_of_pos _ hpx] at h
      rw [List.find?_cons_of_pos _ hqx]
      exact h
    · by_cases hpx : p x = true
      · rw [List.find?_cons_of_pos _ hpx] at h
        cases Option.some.inj h
        exact absurd hy hqx
      · rw [List.find?_cons_of_neg _ hpx] at h
        rw [List.find?_cons_of_neg _ hqx]
        exact ih h

/-- C6: the Entry Reducer's output has pairwise-distinct `(method, URL)`
pairs, is an order-preserving selection from the retained reduced entries,
and each output element is the first retained entry with its `(method, URL)`
pair. -/
theorem entryReducer_dedupe (log : HarLog) :
    (filterAndReduceHarWithStatus log).Pairwise
        (fun a b => ¬ (a.method = b.method ∧ a.url = b.url)) ∧
    (filterAndReduceHarWithStatus log).Sublist (reducedEntries log) ∧
    (∀ y ∈ filterAndReduceHarWithStatus log,
      (reducedEntries log).find?
          (fun x => x.method == y.method && x.url == y.url) = some y) := by
  refine ⟨?_, ?_, ?_⟩
  · have hp := dedupeAux_pairwise parseEntryKey [] (reducedEntries log)
    refine hp.imp ?_
    intro a b hk hab
    exact hk (by unfold parseEntryKey; rw [hab.1, hab.2])
  · exact dedupeAux_sublist parseEntryKey [] (reducedEntries log)
  · intro y hy
    have hf := dedupeAux_find? parseEntryKey [] (reducedEntries log) hy
    refine find?_mono (fun x => parseEntryKey x == parseEntryKey y)
      (fun x => x.method == y.method && x.url == y.url) _ y ?_ (by simp) hf
    intro x hx
    simp only [Bool.and_eq_true, beq_iff_eq] at hx
    simp only [beq_iff_eq]
    unfold parseEntryKey
    rw [hx.1, hx.2]

/-- Concrete log for the C6 witness: two identical API captures and one HTML
page load. -/
def c6Log : HarLog :=
  { version := none
    entries :=
      [{ request := { method := "GET", url := "https://a", headers := [],
                      queryString := none, postData := none },
         response := { status := 200, statusText := none, headers := [],
                       content := some { mimeType := some "application/json",
                                         text := none, encoding := none } } },
       { request := { method := "GET", url := "https://a", headers := [],
                      queryString := none, postData := none },
         response := { status := 200, statusText := none, headers := [],
                       content := some { mimeType := some "application/json",
                                         text := none, encoding := none } } },
       { request := { method := "GET", url := "https://page", headers := [],
                      queryString := none, postData := none },
         response := { status := 200, statusText := none, headers := [],
                       content := some { mimeType := some "text/html",
                                         text := none, encoding := none } } }] }

/-- Reduced entry corresponding to the retained capture of `c6Log`. -/
def c6Parse : ParseEntry :=
  { method := "GET", url := "https://a", headers := [], queryString := none,
    postData := none, status := 200 }

/-- Witness for C6: on `c6Log` the single output entry is found as the first
retained entry with its `(method, URL)` pair. -/
theorem entryReducer_dedupe_witness :
    (reducedEntries c6Log).find?
        (fun x => x.method == c6Parse.method && x.url == c6Parse.url) = some c6Parse := by
  exact (entryReducer_dedupe c6Log).2.2 c6Parse (by decide)

/-- Upper bound for `findEnd`: the loop never runs past the list. -/
theorem findEnd_le {α : Type} (size : List α → Nat) (minimal : List α) (start e : Nat)
    (h : e ≤ minimal.length) : findEnd size minimal start e ≤ minimal.length := by
  rw [findEnd]
  split
  · split
    · exact h
    · exact findEnd_le size minimal start (e + 1) (by omega)
  · exact h
termination_by minimal.length - e
decreasing_by simp_wf; omega

/-- Budget invariant of the grow loop: whenever `findEnd` moved past its
starting point, the slice it settled on fits the payload budget. -/
theorem findEnd_budget {α : Type} (size : List α → Nat) (minimal : List α) (start e : Nat)
    (h : e < findEnd size minimal start e) :
    size (jsSliceList minimal start (findEnd size minimal start e)) ≤ MAX_PAYLOAD_CHARS := by
  by_cases hlt : e < minimal.length
  · by_cases hgt : size (jsSliceList minimal start (e + 1)) > MAX_PAYLOAD_CHARS
    · exfalso
      have heq : findEnd size minimal start e = e := by
        rw [findEnd, dif_pos hlt, if_pos hgt]
      omega
    · have heq : findEnd size minimal start e = findEnd size minimal start (e + 1) := by
        rw [findEnd, dif_pos hlt, if_neg hgt]
      rw [heq] at h ⊢
      by_cases h2 : e + 1 < findEnd size minimal start (e + 1)
      · exact findEnd_budget size minimal start (e + 1) h2
      · have hge := le_findEnd size minimal start (e + 1)
        have heq2 : findEnd size minimal start (e + 1) = e + 1 := by omega
        rw [heq2]
        omega
  · exfalso
    have heq : findEnd size minimal start e = e := by
      rw [findEnd, dif_neg hlt]
    omega
termination_by minimal.length - e
decreasing_by simp_wf; omega

/-- Length of an array slice. -/
theorem jsSliceList_length {α : Type} (l : List α) (a b : Nat) :
    (jsSliceList l a b).length = min (b - a) (l.length - a) := by
  unfold jsSliceList
  rw [List.length_take, List.length_drop]

/-- A slice followed by the drop at its end reassembles the drop at its
start. -/
theorem slice_append_drop {α : Type} (l : List α) (a b : Nat) (h : a ≤ b) :
    jsSliceList l a b ++ l.drop b = l.drop a := by
  unfold jsSliceList
  have hd : (l.drop a).drop (b - a) = l.drop b := by
    rw [List.drop_drop]
    congr 1
    omega
  rw [← hd, List.take_append_drop]

/-- Concatenating the minimized slices of `splitFrom` reassembles the tail of
the input from `start` on. -/
theorem splitFrom_join {α β : Type} (size : List α → Nat) (minimal : List α)
    (entries : List β) (start : Nat) :
    ((splitFrom size minimal entries start).map (fun b => b.minimal)).flatten
      = minimal.drop start := by
  by_cases h : start < minimal.length
  · rw [splitFrom, dif_pos h]
    rw [List.map_cons, List.flatten_cons]
    rw [splitFrom_join size minimal entries (batchEnd size minimal start)]
    exact slice_append_drop minimal start (batchEnd size minimal start)
      (Nat.le_of_lt (lt_batchEnd size minimal start))
  · rw [splitFrom, dif_neg h]
    rw [List.map_nil, List.flatten_nil]
    exact (List.drop_eq_nil_of_le (by omega)).symm
termination_by minimal.length - start
decreasing_by
  have := lt_batchEnd size minimal start
  simp_wf
  omega

/-- Shape of every batch produced by `splitFrom`: it is the slice from its
start offset to the corresponding `batchEnd`, and its start lies in range. -/
theorem splitFrom_mem {α β : Type} (size : List α → Nat) (minimal : List α)
    (entries : List β) (start : Nat) {b : Batch α β}
    (hb : b ∈ splitFrom size minimal entries start) :
    start ≤ b.start ∧ b.start < minimal.length ∧
      b.minimal = jsSliceList minimal b.start (batchEnd size minimal b.start) := by
  by_cases h : start < minimal.length
  · rw [splitFrom, dif_pos h] at hb
    rcases List.mem_cons.mp hb with h1 | h1
    · rw [h1]
      exact ⟨Nat.le_refl _, h, rfl⟩
    · have ih := splitFrom_mem size minimal entries (batchEnd size minimal start) h1
      have hlt := lt_batchEnd size minimal start
      exact ⟨by omega, ih.2.1, ih.2.2⟩
  · rw [splitFrom, dif_neg h] at hb
    simp at hb
termination_by minimal.length - start
decreasing_by
  have := lt_batchEnd size minimal start
  simp_wf
  omega

/-- Every batch covers only positions inside the input list. -/
theorem batch_extent {α β : Type} (size : List α → Nat) (minimal : List α)
    (entries : List β) (start : Nat) {b : Batch α β}
    (hb : b ∈ splitFrom size minimal entries start) :
    b.start + b.minimal.length ≤ minimal.length := by
  obtain ⟨hle, hlt, hmin⟩ := splitFrom_mem size minimal entries start hb
  rw [hmin, jsSliceList_length]
  omega

/-- Every batch of two or more candidates fits the payload budget. -/
theorem batch_budget {α β : Type} (size : List α → Nat) (minimal : List α)
    (entries : List β) (start : Nat) {b : Batch α β}
    (hb : b ∈ splitFrom size minimal entries start) (h2 : 2 ≤ b.minimal.length) :
    size b.minimal ≤ MAX_PAYLOAD_CHARS := by
  obtain ⟨hle, hlt, hmin⟩ := splitFrom_mem size minimal entries start hb
  have hlen : b.minimal.length = min (batchEnd size minimal b.start - b.start)
      (minimal.length - b.start) := by
    rw [hmin, jsSliceList_length]
  have hfe : ¬ (findEnd size minimal b.start b.start = b.start) := by
    intro hc
    have : batchEnd size minimal b.start = b.start + 1 := by
      unfold batchEnd
      simp only []
      rw [if_pos hc]
    omega
  have hgrow : b.start < findEnd size minimal b.start b.start := by
    have := le_findEnd size minimal b.start b.start
    omega
  have hbe : batchEnd size minimal b.start = findEnd size minimal b.start b.start := by
    unfold batchEnd
    simp only []
    rw [if_neg hfe]
  rw [hmin, hbe]
  exact findEnd_budget size minimal b.start b.start hgrow

/-- C4: for every minimized candidate list, every aligned entries list and
every serialized-size function, `splitIntoBatches` partitions the input
exactly (concatenating the batch slices in order reproduces the input), every
batch of two or more candidates serializes within `MAX_PAYLOAD_CHARS`, and —
provided the size function is monotone under sublists, as a serialized-JSON
length is — a candidate whose singleton slice alone exceeds the budget is
still emitted, alone in a singleton batch. -/
theorem splitIntoBatches_partition {α β : Type} (size : List α → Nat)
    (minimal : List α) (entries : List β)
    (hmono : ∀ l₁ l₂ : List α, l₁.Sublist l₂ → size l₁ ≤ size l₂) :
    ((splitIntoBatches size minimal entries).map (fun b => b.minimal)).flatten = minimal ∧
    (∀ b ∈ splitIntoBatches size minimal entries, 2 ≤ b.minimal.length →
        size b.minimal ≤ MAX_PAYLOAD_CHARS) ∧
    (∀ b ∈ splitIntoBatches size minimal entries, ∀ c ∈ b.minimal,
        MAX_PAYLOAD_CHARS < size [c] → b.minimal = [c]) := by
  refine ⟨?_, ?_, ?_⟩
  · have h := splitFrom_join size minimal entries 0
    simpa [splitIntoBatches] using h
  · intro b hb h2
    exact batch_budget size minimal entries 0 hb h2
  · intro b hb c hc hover
    by_cases h2 : 2 ≤ b.minimal.length
    · exfalso
      have hbud := batch_budget size minimal entries 0 hb h2
      have hle := hmono [c] b.minimal (List.singleton_sublist.mpr hc)
      omega
    · have h1 : b.minimal.length = 1 := by
        have hpos := List.length_pos_of_mem hc
        omega
      rcases List.length_eq_one.mp h1 with ⟨a, ha⟩
      rw [ha] at hc ⊢
      rcases List.mem_singleton.mp hc with h3
      rw [h3]

/-- Witness for C4 with the (sublist-monotone) size function `List.length`
on a concrete three-element list. -/
theorem splitIntoBatches_partition_witness :
    ((splitIntoBatches (fun l => l.length) [0, 1, 2] [0, 1, 2]).map (fun b => b.minimal)).flatten
        = [0, 1, 2] ∧
    (∀ b ∈ splitIntoBatches (fun l => l.length) [0, 1, 2] [0, 1, 2],
        2 ≤ b.minimal.length → b.minimal.length ≤ MAX_PAYLOAD_CHARS) ∧
    (∀ b ∈ splitIntoBatches (fun l => l.length) [0, 1, 2] [0, 1, 2], ∀ c ∈ b.minimal,
        MAX_PAYLOAD_CHARS < [c].length → b.minimal = [c]) :=
  splitIntoBatches_partition (fun l => l.length) [0, 1, 2] [0, 1, 2]
    (fun _ _ h => h.length_le)

/-- Bounds extracted from a successful JavaScript index access. -/
theorem jsIndex_some {α : Type} {l : List α} {i : Int} {x : α} (h : jsIndex l i = some x) :
    0 ≤ i ∧ i < (l.length : Int) := by
  unfold jsIndex at h
  split at h
  case isTrue h0 =>
    refine ⟨h0, ?_⟩
    by_contra hge
    have hlen : l.length ≤ i.toNat := by omega
    rw [List.get?_eq_none.mpr hlen] at h
    exact Option.noConfusion h
  case isFalse h0 => exact Option.noConfusion h

/-- A JavaScript index access inside the range succeeds. -/
theorem jsIndex_of_lt {α : Type} {l : List α} {i : Int} (h0 : 0 ≤ i)
    (hl : i < (l.length : Int)) : ∃ x, jsIndex l i = some x := by
  unfold jsIndex
  rw [if_pos h0]
  have hlt : i.toNat < l.length := by omega
  exact ⟨l.get ⟨i.toNat, hlt⟩, List.get?_eq_get hlt⟩

/-- Bounds for the clamped index of the single-batch path on a non-empty
candidate list. -/
theorem safeIndex_bounds (m : MatchOutcome) (len : Nat) (hlen : 1 ≤ len) :
    0 ≤ safeIndex m len ∧ safeIndex m len < (len : Int) := by
  unfold safeIndex
  split
  · have h1 : max 0 (min (rawIndex m) ((len : Int) - 1)) ≤ (len : Int) - 1 :=
      max_le (by omega) (min_le_right _ _)
    exact ⟨le_max_left _ _, by omega⟩
  · exact ⟨le_refl 0, by omega⟩

/-- Index validity of the single-batch path: any reported `matchedIndex` is a
valid position in the non-empty candidate list. -/
theorem matchAndCurlSingle_index (toCurl : RequestSummary → String) (answer : OracleAnswer)
    (entries : List RequestSummary) (minimal : List MinimalRequestSummary)
    (hne : 1 ≤ entries.length) {r : MatchResult}
    (hok : matchAndCurlSingle toCurl answer entries minimal = .ok r)
    {i : Int} (hidx : r.matchedIndex = some i) :
    0 ≤ i ∧ i < (entries.length : Int) := by
  unfold matchAndCurlSingle at hok
  cases hans : matchRequest answer minimal.length with
  | error err =>
    rw [hans] at hok
    exact absurd hok (by simp)
  | ok m =>
    rw [hans] at hok
    dsimp only at hok
    have hsb := safeIndex_bounds m entries.length hne
    cases hji : jsIndex entries (safeIndex m entries.length) with
    | none =>
      rw [hji] at hok
      dsimp only at hok
      obtain rfl := Except.ok.inj hok
      dsimp only at hidx
      by_cases hneg : rawIndex m = -1
      · rw [if_pos hneg] at hidx
        exact absurd hidx (by simp)
      · rw [if_neg hneg] at hidx
        obtain rfl := Option.some.inj hidx
        exact hsb
    | some fullRequest =>
      rw [hji] at hok
      dsimp only at hok
      by_cases hm1 : m.matchedIndex = some (-1)
      · rw [if_pos hm1] at hok
        obtain rfl := Except.ok.inj hok
        dsimp only at hidx
        by_cases hneg : rawIndex m = -1
        · rw [if_pos hneg] at hidx
          exact absurd hidx (by simp)
        · rw [if_neg hneg] at hidx
          obtain rfl := Option.some.inj hidx
          exact hsb
      · rw [if_neg hm1] at hok
        obtain rfl := Except.ok.inj hok
        dsimp only at hidx
        obtain rfl := Option.some.inj hidx
        exact hsb

/-- Decoded `matchedIndex` field of a classifier reply, before validation:
`none` when the reply is unparsable or the field is not an integer — exactly
the "fails structured decoding" condition of the spec. -/
def decodedMatchedIndex : OracleText → Option Int
  | .unparsable => none
  | .parsed obj => obj.matchedIndex

/-- Tolerant parsing yields no index exactly when decoding yielded none. -/
theorem parse_matchedIndex_none {t : OracleText} (h : decodedMatchedIndex t = none)
    (n : Nat) : (parseMatchOnlyResult t n).matchedIndex = none := by
  cases t with
  | unparsable => rfl
  | parsed obj =>
    simp only [decodedMatchedIndex] at h
    simp [parseMatchOnlyResult, h]

/-- C1 (amended): for a non-empty candidate list fitting in a single batch,
when the classifier response fails structured decoding (parse failure or no
integer `matchedIndex`), `matchAndCurl` does NOT return the no-match
outcome: it defaults to the first candidate, returning that candidate's curl
text and `matchedIndex = 0`, with whatever confidence and bullets the
tolerant decode produced. -/
theorem matchAndCurl_decode_failure_first (toCurl : RequestSummary → String)
    (size : List MinimalRequestSummary → Nat) (phase1 : Nat → OracleAnswer) (arb : ArbAnswer)
    (e0 : RequestSummary) (rest : List RequestSummary) (t : OracleText)
    (hfits : size ((e0 :: rest).map toMinimalRequestSummary) ≤ MAX_PAYLOAD_CHARS)
    (hreply : phase1 0 = OracleAnswer.reply t)
    (hdec : decodedMatchedIndex t = none) :
    matchAndCurl true toCurl size phase1 arb (e0 :: rest)
      = .ok ({ curl := toCurl e0, matchedIndex := some 0,
               confidence :=
                 (parseMatchOnlyResult t ((e0 :: rest).map toMinimalRequestSummary).length).confidence,
               explanationBullets :=
                 (parseMatchOnlyResult t ((e0 :: rest).map toMinimalRequestSummary).length).explanationBullets },
             1) := by
  have hmi :
      (parseMatchOnlyResult t ((e0 :: rest).map toMinimalRequestSummary).length).matchedIndex
        = none := parse_matchedIndex_none hdec _
  have hraw : rawIndex (parseMatchOnlyResult t ((e0 :: rest).map toMinimalRequestSummary).length)
      = 0 := by
    unfold rawIndex
    rw [hmi]
    rfl
  have hsafe :
      safeIndex (parseMatchOnlyResult t ((e0 :: rest).map toMinimalRequestSummary).length)
        (e0 :: rest).length = 0 := by
    unfold safeIndex
    rw [hraw, if_pos (le_refl 0)]
    have hm : min (0 : Int) (((e0 :: rest).length : Int) - 1) = 0 := by
      apply min_eq_left
      have : (1 : Int) ≤ ((e0 :: rest).length : Int) := by
        simp
      omega
    rw [hm]
    exact max_self 0
  have hsingle :
      matchAndCurlSingle toCurl (phase1 0) (e0 :: rest) ((e0 :: rest).map toMinimalRequestSummary)
        = .ok { curl := toCurl e0, matchedIndex := some 0,
                confidence :=
                  (parseMatchOnlyResult t ((e0 :: rest).map toMinimalRequestSummary).length).confidence,
                explanationBullets :=
                  (parseMatchOnlyResult t ((e0 :: rest).map toMinimalRequestSummary).length).explanationBullets } := by
    unfold matchAndCurlSingle
    rw [hreply]
    show (match jsIndex (e0 :: rest)
        (safeIndex (parseMatchOnlyResult t ((e0 :: rest).map toMinimalRequestSummary).length)
          (e0 :: rest).length) with
      | none => _
      | some fullRequest => _) = _
    rw [hsafe]
    have hji : jsIndex (e0 :: rest) 0 = some e0 := rfl
    rw [hji]
    dsimp only
    rw [if_neg (by rw [hmi]; exact (by simp))]
  unfold matchAndCurl
  rw [if_neg (by simp), if_pos rfl, if_pos hfits, hsingle]

/-- Witness for C1 (amended) at a concrete one-candidate list and an
unparsable classifier reply. -/
theorem matchAndCurl_decode_failure_first_witness :
    matchAndCurl true (fun r => "curl " ++ r.url) (fun l => l.length)
        (fun _ => OracleAnswer.reply OracleText.unparsable) ArbAnswer.failure
        [{ method := "GET", url := "https://api.example.com/a", headers := [],
           queryString := none, postData := none }]
      = .ok ({ curl := "curl https://api.example.com/a", matchedIndex := some 0,
               confidence := none, explanationBullets := none }, 1) :=
  matchAndCurl_decode_failure_first (fun r => "curl " ++ r.url) (fun l => l.length)
    (fun _ => OracleAnswer.reply OracleText.unparsable) ArbAnswer.failure
    { method := "GET", url := "https://api.example.com/a", headers := [],
      queryString := none, postData := none }
    [] OracleText.unparsable (by decide) rfl rfl

/-- Concrete candidate for the C1 counterexample. -/
def c1Entry : RequestSummary :=
  { method := "GET", url := "https://api.example.com/a", headers := [],
    queryString := none, postData := none }

/-- C1 counterexample: with one candidate fitting in a single batch and an
unparsable classifier response, the result is not the no-match outcome — it
carries `matchedIndex = 0` and the first candidate's curl text. -/
theorem c1_counterexample :
    matchAndCurl true (fun r => "curl " ++ r.url) (fun l => l.length)
        (fun _ => OracleAnswer.reply OracleText.unparsable) ArbAnswer.failure [c1Entry]
      = .ok ({ curl := "curl https://api.example.com/a", matchedIndex := some 0,
               confidence := none, explanationBullets := none }, 1) ∧
    ¬ (matchAndCurl true (fun r => "curl " ++ r.url) (fun l => l.length)
        (fun _ => OracleAnswer.reply OracleText.unparsable) ArbAnswer.failure [c1Entry]
      = .ok ({ curl := "", matchedIndex := none, confidence := none,
               explanationBullets := none }, 1)) := by
  constructor
  · decide
  · decide

/-- The selected arbitration index is always within the candidate list. -/
theorem arbBestIndex_lt (t : ArbText) (n : Nat) (hn : 1 ≤ n) : arbBestIndex t n < n := by
  cases t with
  | unparsable =>
    simp only [arbBestIndex]
    omega
  | parsed obj =>
    cases hbi : obj.bestIndex with
    | none =>
      simp only [arbBestIndex, hbi]
      omega
    | some i =>
      simp only [arbBestIndex, hbi]
      have h1 : max 0 (min i ((n : Int) - 1)) ≤ (n : Int) - 1 :=
        max_le (by omega) (min_le_right _ _)
      have h0 : (0 : Int) ≤ max 0 (min i ((n : Int) - 1)) := le_max_left _ _
      omega

/-- Shape of the candidate-of-candidates entries: the stored index points
into `batchResults` and `fullRequest` is the lookup at the global index. -/
theorem arbCandidates_spec {batchResults : List BatchHit} {entries : List RequestSummary}
    {c : ArbCandidate} (hc : c ∈ arbCandidates batchResults entries) :
    c.index < batchResults.length ∧ c.fullRequest = jsIndex entries c.globalIndex := by
  unfold arbCandidates at hc
  rcases List.mem_map.mp hc with ⟨p, hp, hpc⟩
  have hidx : batchResults[p.1]? = some p.2 := List.mem_enum_iff_getElem?.mp hp
  have hlt : p.1 < batchResults.length := by
    rcases List.getElem?_eq_some.mp hidx with ⟨hl, _⟩
    exact hl
  constructor
  · rw [← hpc]
    exact hlt
  · rw [← hpc]

/-- Valid candidates additionally have a present `fullRequest`. -/
theorem validArbCandidates_spec {batchResults : List BatchHit} {entries : List RequestSummary}
    {c : ArbCandidate} (hc : c ∈ validArbCandidates batchResults entries) :
    c.index < batchResults.length ∧ c.fullRequest = jsIndex entries c.globalIndex ∧
      c.fullRequest.isSome = true := by
  unfold validArbCandidates at hc
  have hmem := List.mem_of_mem_filter hc
  have hflt := List.of_mem_filter hc
  exact ⟨(arbCandidates_spec hmem).1, (arbCandidates_spec hmem).2, hflt⟩

/-- C2 (amended): with at least two valid candidate-of-candidates entries,
the arbitration winner is the entry at position `arbBestIndex`: position 0
exactly on decode failure or a non-integer `bestIndex`, and otherwise the
decoded integer clamped into `[0, n-1]` — so an out-of-range integer
`bestIndex ≥ n` selects the LAST entry, not the first. -/
theorem aggregateBatchWinners_selects (arbT : ArbText) (batchResults : List BatchHit)
    (entries : List RequestSummary)
    (h2 : 2 ≤ (validArbCandidates batchResults entries).length) :
    ∃ c, (validArbCandidates batchResults entries).get?
          (arbBestIndex arbT (validArbCandidates batchResults entries).length) = some c ∧
      ∃ w, aggregateBatchWinners (ArbAnswer.reply arbT) batchResults entries
          = .ok (some w, true) ∧
        w.globalIndex = c.globalIndex ∧ some w.fullRequest = c.fullRequest := by
  cases hv : validArbCandidates batchResults entries with
  | nil =>
    rw [hv] at h2
    simp at h2
  | cons c1 tail =>
    cases tail with
    | nil =>
      rw [hv] at h2
      simp at h2
    | cons c2 rest =>
      have hlen1 : 1 ≤ (c1 :: c2 :: rest).length := by simp
      have hbi := arbBestIndex_lt arbT (c1 :: c2 :: rest).length hlen1
      obtain ⟨winner, hwin⟩ :
          ∃ w, (c1 :: c2 :: rest).get? (arbBestIndex arbT (c1 :: c2 :: rest).length) = some w :=
        ⟨_, List.get?_eq_get hbi⟩
      have hmem : winner ∈ validArbCandidates batchResults entries := by
        rw [hv]
        exact List.get?_mem hwin
      obtain ⟨hidxlt, heq, hsome⟩ := validArbCandidates_spec hmem
      obtain ⟨fr, hfr⟩ := Option.isSome_iff_exists.mp hsome
      obtain ⟨br, hbr⟩ : ∃ br, batchResults.get? winner.index = some br :=
        ⟨_, List.get?_eq_get hidxlt⟩
      refine ⟨winner, hwin,
        ⟨winner.globalIndex, fr, br.confidence, br.explanationBullets⟩, ?_, rfl, by rw [hfr]⟩
      unfold aggregateBatchWinners
      rw [hv]
      dsimp only
      rw [hwin]
      dsimp only
      rw [hfr, hbr]

/-- First entry used by the C2 scenario. -/
def c2Entry0 : RequestSummary :=
  { method := "GET", url := "https://api.example.com/first", headers := [],
    queryString := none, postData := none }

/-- Second entry used by the C2 scenario. -/
def c2Entry1 : RequestSummary :=
  { method := "POST", url := "https://api.example.com/second", headers := [],
    queryString := none, postData := none }

/-- Two per-batch hits used by the C2 scenario: local index 0 in the batch
starting at 0 and local index 0 in the batch starting at 1. -/
def c2Hits : List BatchHit :=
  [{ matchedIndex := 0, confidence := none, explanationBullets := none, batchStart := 0 },
   { matchedIndex := 0, confidence := none, explanationBullets := none, batchStart := 1 }]

/-- Witness for C2 (amended) at the concrete scenario with decoded
`bestIndex = 5` against two valid candidate-of-candidates entries. -/
theorem aggregateBatchWinners_selects_witness :
    ∃ c, (validArbCandidates c2Hits [c2Entry0, c2Entry1]).get?
          (arbBestIndex (ArbText.parsed ⟨some 5⟩)
            (validArbCandidates c2Hits [c2Entry0, c2Entry1]).length) = some c ∧
      ∃ w, aggregateBatchWinners (ArbAnswer.reply (ArbText.parsed ⟨some 5⟩)) c2Hits
            [c2Entry0, c2Entry1]
          = .ok (some w, true) ∧
        w.globalIndex = c.globalIndex ∧ some w.fullRequest = c.fullRequest :=
  aggregateBatchWinners_selects (ArbText.parsed ⟨some 5⟩) c2Hits [c2Entry0, c2Entry1] (by decide)

/-- C2 counterexample: the decoded out-of-range `bestIndex = 5` (with two
candidate-of-candidates entries) selects the SECOND entry — global index 1,
the request `c2Entry1` — not the first entry at index 0 as claimed. -/
theorem c2_counterexample :
    aggregateBatchWinners (ArbAnswer.reply (ArbText.parsed ⟨some 5⟩)) c2Hits
        [c2Entry0, c2Entry1]
      = .ok (some { globalIndex := 1, fullRequest := c2Entry1, confidence := none,
                    explanationBullets := none }, true) ∧
    ¬ (aggregateBatchWinners (ArbAnswer.reply (ArbText.parsed ⟨some 5⟩)) c2Hits
        [c2Entry0, c2Entry1]
      = .ok (some { globalIndex := 0, fullRequest := c2Entry0, confidence := none,
                    explanationBullets := none }, true)) := by
  constructor
  · decide
  · decide

/-- Every hit collected in phase 1 comes from some batch: its start offset is
that batch's start and its local index is valid for that batch. -/
theorem runPhase1_hits (phase1 : Nat → OracleAnswer)
    (batches : List (Batch MinimalRequestSummary RequestSummary)) (i0 : Nat)
    {hits : List BatchHit} (hok : runPhase1 phase1 batches i0 = .ok hits) :
    ∀ hit ∈ hits, ∃ b ∈ batches, hit.batchStart = b.start ∧
      0 ≤ hit.matchedIndex ∧ hit.matchedIndex < (b.minimal.length : Int) := by
  induction batches generalizing i0 hits with
  | nil =>
    simp only [runPhase1] at hok
    obtain rfl := Except.ok.inj hok
    intro hit hh
    simp at hh
  | cons b rest ih =>
    rw [runPhase1] at hok
    cases hm : matchRequest (phase1 i0) b.minimal.length with
    | error err =>
      rw [hm] at hok
      simp at hok
    | ok m =>
      rw [hm] at hok
      dsimp only at hok
      cases ht : runPhase1 phase1 rest (i0 + 1) with
      | error err =>
        rw [ht] at hok
        simp at hok
      | ok tail =>
        rw [ht] at hok
        dsimp only at hok
        cases hmi : m.matchedIndex with
        | none =>
          rw [hmi] at hok
          dsimp only at hok
          obtain rfl := Except.ok.inj hok
          intro hit hh
          obtain ⟨b', hb', h3⟩ := ih (i0 + 1) ht hit hh
          exact ⟨b', List.mem_cons_of_mem _ hb', h3⟩
        | some idx =>
          rw [hmi] at hok
          dsimp only at hok
          by_cases hcond : 0 ≤ idx ∧ idx < (b.minimal.length : Int)
          · rw [if_pos hcond] at hok
            obtain rfl := Except.ok.inj hok
            intro hit hh
            rcases List.mem_cons.mp hh with h1 | h1
            · subst h1
              exact ⟨b, List.mem_cons_self _ _, rfl, hcond.1, hcond.2⟩
            · obtain ⟨b', hb', h3⟩ := ih (i0 + 1) ht hit h1
              exact ⟨b', List.mem_cons_of_mem _ hb', h3⟩
          · rw [if_neg hcond] at hok
            obtain rfl := Except.ok.inj hok
            intro hit hh
            obtain ⟨b', hb', h3⟩ := ih (i0 + 1) ht hit hh
            exact ⟨b', List.mem_cons_of_mem _ hb', h3⟩

/-- Any winner reported by the aggregation step carries a global index that
is a valid position in the entries list. -/
theorem aggregate_winner_bounds {arb : ArbAnswer} {batchResults : List BatchHit}
    {entries : List RequestSummary} {w : Winner} {called : Bool}
    (h : aggregateBatchWinners arb batchResults entries = .ok (some w, called)) :
    0 ≤ w.globalIndex ∧ w.globalIndex < (entries.length : Int) := by
  unfold aggregateBatchWinners at h
  cases hv : validArbCandidates batchResults entries with
  | nil =>
    rw [hv] at h
    simp at h
  | cons c1 tail =>
    cases tail with
    | nil =>
      rw [hv] at h
      dsimp only at h
      cases hfr : c1.fullRequest with
      | none =>
        rw [hfr] at h
        simp at h
      | some fr =>
        rw [hfr] at h
        cases hbr : batchResults.get? c1.index with
        | none =>
          rw [hbr] at h
          simp at h
        | some br =>
          rw [hbr] at h
          dsimp only at h
          have hmem : c1 ∈ validArbCandidates batchResults entries := by
            rw [hv]
            exact List.mem_cons_self _ _
          obtain ⟨_, heq, _⟩ := validArbCandidates_spec hmem
          have hb := jsIndex_some (l := entries)
            (show jsIndex entries c1.globalIndex = some fr by rw [← heq]; exact hfr)
          obtain ⟨hw, _⟩ := Prod.mk.inj (Except.ok.inj h)
          obtain rfl := Option.some.inj hw
          exact hb
    | cons c2 rest =>
      rw [hv] at h
      dsimp only at h
      cases arb with
      | failure => simp at h
      | reply t =>
        dsimp only at h
        cases hwin : (c1 :: c2 :: rest).get? (arbBestIndex t (c1 :: c2 :: rest).length) with
        | none =>
          rw [hwin] at h
          simp at h
        | some winner =>
          rw [hwin] at h
          dsimp only at h
          cases hfr : winner.fullRequest with
          | none =>
            rw [hfr] at h
            simp at h
          | some fr =>
            rw [hfr] at h
            cases hbr : batchResults.get? winner.index with
            | none =>
              rw [hbr] at h
              simp at h
            | some br =>
              rw [hbr] at h
              dsimp only at h
              have hmem : winner ∈ validArbCandidates batchResults entries := by
                rw [hv]
                exact List.get?_mem hwin
              obtain ⟨_, heq, _⟩ := validArbCandidates_spec hmem
              have hb := jsIndex_some (l := entries)
                (show jsIndex entries winner.globalIndex = some fr by rw [← heq]; exact hfr)
              obtain ⟨hw, _⟩ := Prod.mk.inj (Except.ok.inj h)
              obtain rfl := Option.some.inj hw
              exact hb

/-- Index validity of the batched path: any reported `matchedIndex` is a
valid position in the entries list (assuming the minimized list mirrors the
entries list in length, as it does at the call site). -/
theorem matchAndCurlBatched_index (toCurl : RequestSummary → String)
    (size : List MinimalRequestSummary → Nat) (phase1 : Nat → OracleAnswer) (arb : ArbAnswer)
    (entries : List RequestSummary) (minimal : List MinimalRequestSummary)
    (hlen : minimal.length = entries.length) {r : MatchResult} {n : Nat}
    (hok : matchAndCurlBatched toCurl size phase1 arb entries minimal = .ok (r, n))
    {i : Int} (hidx : r.matchedIndex = some i) :
    0 ≤ i ∧ i < (entries.length : Int) := by
  unfold matchAndCurlBatched at hok
  cases hp1 : runPhase1 phase1 (splitIntoBatches size minimal entries) 0 with
  | error err =>
    rw [hp1] at hok
    simp at hok
  | ok batchResults =>
    rw [hp1] at hok
    cases batchResults with
    | nil =>
      dsimp only at hok
      obtain ⟨hr, _⟩ := Prod.mk.inj (Except.ok.inj hok)
      rw [← hr] at hidx
      exact absurd hidx (by simp)
    | cons r1 tail =>
      cases tail with
      | nil =>
        obtain ⟨b, hbmem, hstart, h0, hlt⟩ :=
          runPhase1_hits phase1 _ 0 hp1 r1 (List.mem_cons_self _ _)
        have hext := batch_extent size minimal entries 0 hbmem
        have hbound : 0 ≤ (r1.batchStart : Int) + r1.matchedIndex ∧
            (r1.batchStart : Int) + r1.matchedIndex < (entries.length : Int) := by
          constructor
          · omega
          · omega
        dsimp only at hok
        cases hji : jsIndex entries ((r1.batchStart : Int) + r1.matchedIndex) with
        | none =>
          rw [hji] at hok
          dsimp only at hok
          obtain ⟨hr, _⟩ := Prod.mk.inj (Except.ok.inj hok)
          rw [← hr] at hidx
          dsimp only at hidx
          obtain rfl := Option.some.inj hidx
          exact hbound
        | some fr =>
          rw [hji] at hok
          dsimp only at hok
          obtain ⟨hr, _⟩ := Prod.mk.inj (Except.ok.inj hok)
          rw [← hr] at hidx
          dsimp only at hidx
          obtain rfl := Option.some.inj hidx
          exact hbound
      | cons r2 rest =>
        dsimp only at hok
        cases hagg : aggregateBatchWinners arb (r1 :: r2 :: rest) entries with
        | error err =>
          rw [hagg] at hok
          simp at hok
        | ok pair =>
          obtain ⟨bw, called⟩ := pair
          rw [hagg] at hok
          cases bw with
          | none =>
            dsimp only at hok
            obtain ⟨hr, _⟩ := Prod.mk.inj (Except.ok.inj hok)
            rw [← hr] at hidx
            exact absurd hidx (by simp)
          | some w =>
            dsimp only at hok
            have hb := aggregate_winner_bounds hagg
            obtain ⟨hr, _⟩ := Prod.mk.inj (Except.ok.inj hok)
            rw [← hr] at hidx
            dsimp only at hidx
            obtain rfl := Option.some.inj hidx
            exact hb

/-- C9: for every candidate list and every sequence of oracle outcomes, a
defined `matchedIndex` in a successful `matchAndCurl` result is a valid
index into the caller-supplied entries list. -/
theorem matchAndCurl_index_valid (keyConfigured : Bool) (toCurl : RequestSummary → String)
    (size : List MinimalRequestSummary → Nat) (phase1 : Nat → OracleAnswer) (arb : ArbAnswer)
    (entries : List RequestSummary) {r : MatchResult} {n : Nat}
    (hok : matchAndCurl keyConfigured toCurl size phase1 arb entries = .ok (r, n))
    {i : Int} (hidx : r.matchedIndex = some i) :
    0 ≤ i ∧ i < (entries.length : Int) := by
  unfold matchAndCurl at hok
  by_cases hemp : entries.length = 0
  · rw [if_pos hemp] at hok
    obtain ⟨hr, _⟩ := Prod.mk.inj (Except.ok.inj hok)
    rw [← hr] at hidx
    exact absurd hidx (by simp)
  · rw [if_neg hemp] at hok
    cases keyConfigured with
    | false => simp at hok
    | true =>
      rw [if_pos rfl] at hok
      by_cases hfits : size (entries.map toMinimalRequestSummary) ≤ MAX_PAYLOAD_CHARS
      · rw [if_pos hfits] at hok
        cases hs : matchAndCurlSingle toCurl (phase1 0) entries
            (entries.map toMinimalRequestSummary) with
        | error err =>
          rw [hs] at hok
          simp at hok
        | ok r2 =>
          rw [hs] at hok
          dsimp only at hok
          obtain ⟨hr, _⟩ := Prod.mk.inj (Except.ok.inj hok)
          rw [← hr] at hidx
          exact matchAndCurlSingle_index toCurl (phase1 0) entries _ (by omega) hs hidx
      · rw [if_neg hfits] at hok
        exact matchAndCurlBatched_index toCurl size phase1 arb entries _ (by simp) hok hidx

/-- Entry used by the C9 witness. -/
def c9Entry : RequestSummary :=
  { method := "GET", url := "https://api.example.com/w", headers := [],
    queryString := none, postData := none }

/-- Witness for C9 at a concrete single-batch run whose classifier reply
selects index 0. -/
theorem matchAndCurl_index_valid_witness :
    (0 : Int) ≤ 0 ∧ (0 : Int) < (([c9Entry] : List RequestSummary).length : Int) :=
  matchAndCurl_index_valid true (fun r => r.url) (fun l => l.length)
    (fun _ => OracleAnswer.reply (OracleText.parsed ⟨some 0, none, none⟩)) ArbAnswer.failure
    [c9Entry]
    (show matchAndCurl true (fun r => r.url) (fun l => l.length)
        (fun _ => OracleAnswer.reply (OracleText.parsed ⟨some 0, none, none⟩)) ArbAnswer.failure
        [c9Entry]
        = .ok ({ curl := c9Entry.url, matchedIndex := some 0, confidence := none,
                 explanationBullets := none }, 1) by decide)
    rfl

/-- C8: in the batched path, when phase 1 produced exactly one usable hit,
the result's `matchedIndex` is that hit's batch start offset plus its local
index, and the classifier-call count equals the number of batches — the
Phase 2 arbitration call is never made. -/
theorem matchAndCurlBatched_single_hit (toCurl : RequestSummary → String)
    (size : List MinimalRequestSummary → Nat) (phase1 : Nat → OracleAnswer) (arb : ArbAnswer)
    (entries : List RequestSummary) (minimal : List MinimalRequestSummary) (r1 : BatchHit)
    (hp1 : runPhase1 phase1 (splitIntoBatches size minimal entries) 0 = .ok [r1]) :
    ∃ res, matchAndCurlBatched toCurl size phase1 arb entries minimal
        = .ok (res, (splitIntoBatches size minimal entries).length) ∧
      res.matchedIndex = some ((r1.batchStart : Int) + r1.matchedIndex) := by
  unfold matchAndCurlBatched
  rw [hp1]
  dsimp only
  cases hji : jsIndex entries ((r1.batchStart : Int) + r1.matchedIndex) with
  | none => exact ⟨_, rfl, rfl⟩
  | some fr => exact ⟨_, rfl, rfl⟩

/-- Minimized candidates for the C8 witness. -/
def c8Min0 : MinimalRequestSummary :=
  { method := "GET", url := "https://api.example.com/p0", headers := [], postData := none }

/-- Second minimized candidate for the C8 witness. -/
def c8Min1 : MinimalRequestSummary :=
  { method := "GET", url := "https://api.example.com/p1", headers := [], postData := none }

/-- Entries for the C8 witness. -/
def c8Entry0 : RequestSummary :=
  { method := "GET", url := "https://api.example.com/p0", headers := [],
    queryString := none, postData := none }

/-- Second entry for the C8 witness. -/
def c8Entry1 : RequestSummary :=
  { method := "GET", url := "https://api.example.com/p1", headers := [],
    queryString := none, postData := none }

/-- Size function for the C8 witness: each candidate serializes to 60000
characters, forcing one batch per candidate under the 100000 budget. -/
def c8Size : List MinimalRequestSummary → Nat := fun l => 60000 * l.length

/-- Oracle replies for the C8 witness: batch 0 matches locally at 0, batch 1
returns an unparsable reply (no usable index). -/
def c8Phase : Nat → OracleAnswer := fun i =>
  if i = 0 then OracleAnswer.reply (OracleText.parsed ⟨some 0, none, none⟩)
  else OracleAnswer.reply OracleText.unparsable

/-- Witness for C8 at the concrete two-batch scenario with exactly one
usable hit. -/
theorem matchAndCurlBatched_single_hit_witness :
    ∃ res, matchAndCurlBatched (fun r => r.url) c8Size c8Phase ArbAnswer.failure
        [c8Entry0, c8Entry1] [c8Min0, c8Min1]
        = .ok (res, (splitIntoBatches c8Size [c8Min0, c8Min1] [c8Entry0, c8Entry1]).length) ∧
      res.matchedIndex
        = some ((({ matchedIndex := 0, confidence := none, explanationBullets := none,
                    batchStart := 0 } : BatchHit).batchStart : Int)
            + ({ matchedIndex := 0, confidence := none, explanationBullets := none,
                 batchStart := 0 } : BatchHit).matchedIndex) :=
  matchAndCurlBatched_single_hit (fun r => r.url) c8Size c8Phase ArbAnswer.failure
    [c8Entry0, c8Entry1] [c8Min0, c8Min1]
    { matchedIndex := 0, confidence := none, explanationBullets := none, batchStart := 0 }
    (by
      have hb : splitIntoBatches c8Size [c8Min0, c8Min1] [c8Entry0, c8Entry1]
          = [{ minimal := [c8Min0], entries := [c8Entry0], start := 0 },
             { minimal := [c8Min1], entries := [c8Entry1], start := 1 }] := by
        simp [splitIntoBatches, splitFrom, findEnd, batchEnd, jsSliceList, MAX_PAYLOAD_CHARS,
          c8Size]
      rw [hb]
      decide)
